import Mathlib

/-!
Shallow embedding of the two-tier caching subsystem of `server.ts`:
- `safeUrl` embeds `url.replace(/[\/\s]/g, '_')` (key normalization),
- the volatile tier (NodeCache `memoryCache`) and the durable tier
  (Firestore collection `cache`) are association lists from keys to values,
- `resolve` embeds the `server.get('*')` handler (volatile lookup,
  durable lookup with shape check, render on miss, dual populate),
- `invalidateKey` / `invalidatePattern` / `invalidateHandler` embed the
  `POST /api/cache/invalidate` handler.
Durable-store fallibility is modelled by two Boolean flags (`getOk`,
`setOk`): a `false` flag makes the corresponding Firestore call throw,
which the handler catches.  `renders` counts renderer invocations and
`fireCalls` counts durable-store round trips (attempted get/set calls).
-/

/-- A JavaScript value stored in the `html` field of a durable record:
either a string, or anything whose `typeof` is not `'string'`
(number, object, undefined field, ...). -/
inductive JsVal where
  | str : String → JsVal
  | nonString : JsVal
deriving DecidableEq

/-- The record written to Firestore by the handler:
`{ html, timestamp, url, createdAt }` (interface `CacheData`). -/
structure CacheData where
  html : JsVal
  timestamp : Nat
  url : String
  createdAt : Nat
deriving DecidableEq

/-- Association-list lookup (embeds `memoryCache.get` / Firestore document lookup). -/
def alGet {β : Type} : List (String × β) → String → Option β
  | [], _ => none
  | (k', v) :: t, k => if k' == k then some v else alGet t k

/-- Association-list delete (embeds `memoryCache.del` / Firestore `delete`). -/
def alDel {β : Type} (m : List (String × β)) (k : String) : List (String × β) :=
  m.filter (fun p => p.1 != k)

/-- Association-list overwrite (embeds `memoryCache.set` / Firestore `set`). -/
def alSet {β : Type} (m : List (String × β)) (k : String) (v : β) : List (String × β) :=
  (k, v) :: alDel m k

/-- Key enumeration (embeds `memoryCache.keys()`). -/
def alKeys {β : Type} (m : List (String × β)) : List String :=
  m.map Prod.fst

/-- ECMAScript `\s` character class (the whitespace characters matched by
the regex `/[\/\s]/g` in `server.ts`). -/
def isJsWhitespace (c : Char) : Bool :=
  let n := c.toNat
  n == 0x09 || n == 0x0A || n == 0x0B || n == 0x0C || n == 0x0D || n == 0x20 ||
  n == 0xA0 || n == 0x1680 || (0x2000 ≤ n && n ≤ 0x200A) ||
  n == 0x2028 || n == 0x2029 || n == 0x202F || n == 0x205F ||
  n == 0x3000 || n == 0xFEFF

/-- Per-character action of the regex replace: `/` and whitespace become `_`. -/
def normChar (c : Char) : Char :=
  if c == '/' || isJsWhitespace c then '_' else c

/-- Key normalization: `const safeUrl = req.url.replace(/[\/\s]/g, '_')`. -/
def safeUrl (url : String) : String :=
  ⟨url.data.map normChar⟩

/-- The result of `docRef.get()`: an existence flag plus the optional payload
(interface `CachedDocument`: `exists: boolean; data(): {html} | undefined`). -/
structure DocSnapshot where
  docExists : Bool
  data : Option CacheData
deriving DecidableEq

/-- Durable-tier read: a present document yields `exists = true` with its
payload; an absent one yields `exists = false` with no payload.  The state
maps a key to `some none` when the document exists but `data()` is
undefined, which the `CachedDocument` interface allows. -/
def fireGet (fire : List (String × Option CacheData)) (k : String) : DocSnapshot :=
  match alGet fire k with
  | some d => ⟨true, d⟩
  | none => ⟨false, none⟩

/-- The handler's hit condition on a durable snapshot:
`cachedDoc.exists && cachedData && typeof cachedData.html === 'string'`. -/
def hitShape (doc : DocSnapshot) : Bool :=
  doc.docExists &&
    (match doc.data with
     | some d => (match d.html with | JsVal.str _ => true | JsVal.nonString => false)
     | none => false)

/-- Outcome flags for the two fallible Firestore calls a single request can
make: `getOk = false` makes `docRef.get()` throw, `setOk = false` makes
`docRef.set(...)` throw. -/
structure FireOps where
  getOk : Bool
  setOk : Bool
deriving DecidableEq

/-- What one request observes and leaves behind: the response body, both
tiers' final states, the number of renderer invocations, and the number of
durable-store round trips attempted. -/
structure ResolveOut where
  body : String
  mem : List (String × String)
  fire : List (String × Option CacheData)
  renders : Nat
  fireCalls : Nat
deriving DecidableEq

/-- JavaScript truthiness of a string (`if (memoryCached)`):
only the empty string is falsy. -/
def truthyStr (s : String) : Bool :=
  s != ""

/-- Steps 3-5 of the handler: render, store in memory (inside the `try`,
never fails), attempt the Firestore write (skipped effect when it throws),
send the rendered html.  One durable round trip (the `set`) is attempted. -/
def renderAndStore (mem : List (String × String)) (fire : List (String × Option CacheData))
    (ops : FireOps) (renderer : String → String) (url safeKey : String)
    (serverTime now : Nat) : ResolveOut :=
  let html := renderer url
  { body := html
    mem := alSet mem safeKey html
    fire :=
      if ops.setOk then
        alSet fire safeKey (some ⟨JsVal.str html, serverTime, url, now⟩)
      else fire
    renders := 1
    fireCalls := 1 }

/-- Adds the durable `get` round trip to an outcome's call count. -/
def afterGetCall (o : ResolveOut) : ResolveOut :=
  { o with fireCalls := o.fireCalls + 1 }

/-- Step 2 onwards of the handler: the Firestore lookup inside its
`try/catch`.  On a well-shaped hit the memory tier is backfilled and the
cached html is sent; on a throw, a missing document, a missing payload or a
non-string `html` field, control falls through to render-and-store. -/
def resolveFire (mem : List (String × String)) (fire : List (String × Option CacheData))
    (ops : FireOps) (renderer : String → String) (url safeKey : String)
    (serverTime now : Nat) : ResolveOut :=
  if ops.getOk then
    match fireGet fire safeKey with
    | ⟨true, some d⟩ =>
      match d.html with
      | JsVal.str s =>
        { body := s, mem := alSet mem safeKey s, fire := fire, renders := 0, fireCalls := 1 }
      | JsVal.nonString =>
        afterGetCall (renderAndStore mem fire ops renderer url safeKey serverTime now)
    | _ =>
      afterGetCall (renderAndStore mem fire ops renderer url safeKey serverTime now)
  else
    afterGetCall (renderAndStore mem fire ops renderer url safeKey serverTime now)

/-- The `server.get('*')` handler: normalize, volatile lookup guarded by
JavaScript truthiness, then the durable/render path. -/
def resolve (mem : List (String × String)) (fire : List (String × Option CacheData))
    (ops : FireOps) (renderer : String → String) (url : String)
    (serverTime now : Nat) : ResolveOut :=
  let safeKey := safeUrl url
  match alGet mem safeKey with
  | some v =>
    if truthyStr v then
      { body := v, mem := mem, fire := fire, renders := 0, fireCalls := 0 }
    else
      resolveFire mem fire ops renderer url safeKey serverTime now
  | none =>
    resolveFire mem fire ops renderer url safeKey serverTime now

/-- Both tiers, as mutated by the invalidation endpoint. -/
structure ServerState where
  mem : List (String × String)
  fire : List (String × Option CacheData)
deriving DecidableEq

/-- The `url` branch of `POST /api/cache/invalidate`: normalize, delete
from memory, delete the Firestore document. -/
def invalidateKey (st : ServerState) (url : String) : ServerState :=
  let k := safeUrl url
  ⟨alDel st.mem k, alDel st.fire k⟩

/-- `pat` starts the character list `s` (character-by-character). -/
def leadsWith : List Char → List Char → Bool
  | [], _ => true
  | _ :: _, [] => false
  | a :: p', b :: s' => a == b && leadsWith p' s'

/-- `pat` occurs contiguously somewhere in `s`. -/
def occursIn (pat : List Char) : List Char → Bool
  | [] => leadsWith pat []
  | c :: s' => leadsWith pat (c :: s') || occursIn pat s'

/-- JavaScript `key.includes(pattern)`: plain substring containment. -/
def strIncludes (s pat : String) : Bool :=
  occursIn pat.data s.data

/-- One iteration of the `memoryKeys.forEach` loop of the pattern branch:
if the key contains the pattern, delete it from both tiers. -/
def invStep (pat : String) (st : ServerState) (k : String) : ServerState :=
  if strIncludes k pat then ⟨alDel st.mem k, alDel st.fire k⟩ else st

/-- The `pattern` branch of `POST /api/cache/invalidate`: snapshot the
volatile tier's keys, then delete every key containing the pattern from
both tiers. -/
def invalidatePattern (st : ServerState) (pat : String) : ServerState :=
  (alKeys st.mem).foldl (invStep pat) st

/-- The whole `POST /api/cache/invalidate` handler: optional `url` branch,
optional `pattern` branch, then `res.send({ success: true })`. -/
def invalidateHandler (st : ServerState) (urlArg patArg : Option String) :
    ServerState × Bool :=
  let st1 := match urlArg with
    | some u => invalidateKey st u
    | none => st
  let st2 := match patArg with
    | some p => invalidatePattern st1 p
    | none => st1
  (st2, true)

/-! ### Helper lemmas about the tier maps -/

theorem alGet_alSet_self {β : Type} (m : List (String × β)) (k : String) (v : β) :
    alGet (alSet m k v) k = some v := by
  simp [alSet, alGet]

theorem alDel_cons {β : Type} (a : String) (v : β) (t : List (String × β)) (k : String) :
    alDel ((a, v) :: t) k = if a = k then alDel t k else (a, v) :: alDel t k := by
  by_cases hp : a = k <;> simp [alDel, List.filter_cons, hp]

theorem alGet_alDel_self {β : Type} (m : List (String × β)) (k : String) :
    alGet (alDel m k) k = none := by
  induction m with
  | nil => rfl
  | cons p t ih =>
    obtain ⟨a, v⟩ := p
    rw [alDel_cons]
    by_cases hp : a = k
    · simpa [hp] using ih
    · simp [hp, alGet, ih]

theorem alGet_alDel_ne {β : Type} (m : List (String × β)) (k k' : String)
    (h : k' ≠ k) : alGet (alDel m k) k' = alGet m k' := by
  induction m with
  | nil => rfl
  | cons p t ih =>
    obtain ⟨a, v⟩ := p
    rw [alDel_cons]
    by_cases hp : a = k
    · simp [hp, Ne.symm h, alGet, ih]
    · by_cases ha : a = k'
      · simp [hp, ha, alGet, h]
      · simp [hp, ha, alGet, ih]

theorem alGet_alSet_ne {β : Type} (m : List (String × β)) (k k' : String) (v : β)
    (h : k' ≠ k) : alGet (alSet m k v) k' = alGet m k' := by
  have hk : k ≠ k' := Ne.symm h
  simp [alSet, alGet, hk, alGet_alDel_ne m k k' h]

theorem alDel_of_absent {β : Type} (m : List (String × β)) (k : String)
    (h : alGet m k = none) : alDel m k = m := by
  induction m with
  | nil => rfl
  | cons p t ih =>
    obtain ⟨a, v⟩ := p
    by_cases hp : a = k
    · simp [alGet, hp] at h
    · simp [alGet, hp] at h
      rw [alDel_cons]
      simp [hp, ih h]

theorem truthyStr_iff (v : String) : truthyStr v = true ↔ v ≠ "" := by
  simp [truthyStr]

/-! ### Helper lemmas about normalization -/

theorem normChar_eq_underscore (c : Char) (h : (c == '/' || isJsWhitespace c) = true) :
    normChar c = '_' := by
  simp [normChar, h]

theorem normChar_eq_self (c : Char) (h : (c == '/' || isJsWhitespace c) = false) :
    normChar c = c := by
  simp [normChar, h]

theorem normChar_idem (c : Char) : normChar (normChar c) = normChar c := by
  by_cases h : (c == '/' || isJsWhitespace c) = true
  · rw [normChar_eq_underscore c h]
    decide
  · have hc : normChar c = c := normChar_eq_self c (by simpa using h)
    rw [hc]
    exact hc

/-! ### Helper lemmas about the request handler -/

theorem resolve_mem_hit {mem : List (String × String)} {fire : List (String × Option CacheData)}
    {ops : FireOps} {renderer : String → String} {url : String} {ts now : Nat} {v : String}
    (hm : alGet mem (safeUrl url) = some v) (hv : v ≠ "") :
    resolve mem fire ops renderer url ts now = ⟨v, mem, fire, 0, 0⟩ := by
  have ht : truthyStr v = true := (truthyStr_iff v).mpr hv
  simp [resolve, hm, ht]

theorem resolve_of_mem_miss {mem : List (String × String)} {fire : List (String × Option CacheData)}
    {ops : FireOps} {renderer : String → String} {url : String} {ts now : Nat}
    (hm : alGet mem (safeUrl url) = none) :
    resolve mem fire ops renderer url ts now =
      resolveFire mem fire ops renderer url (safeUrl url) ts now := by
  simp [resolve, hm]

theorem resolve_of_mem_empty {mem : List (String × String)} {fire : List (String × Option CacheData)}
    {ops : FireOps} {renderer : String → String} {url : String} {ts now : Nat}
    (hm : alGet mem (safeUrl url) = some "") :
    resolve mem fire ops renderer url ts now =
      resolveFire mem fire ops renderer url (safeUrl url) ts now := by
  simp [resolve, hm, truthyStr]

theorem resolveFire_hit {mem : List (String × String)} {fire : List (String × Option CacheData)}
    {renderer : String → String} {url key : String} {ts now : Nat} {s2 : Bool}
    {d : CacheData} {c : String}
    (hf : alGet fire key = some (some d)) (hc : d.html = JsVal.str c) :
    resolveFire mem fire ⟨true, s2⟩ renderer url key ts now =
      ⟨c, alSet mem key c, fire, 0, 1⟩ := by
  simp [resolveFire, fireGet, hf, hc]

theorem resolveFire_noShape {mem : List (String × String)} {fire : List (String × Option CacheData)}
    {renderer : String → String} {url key : String} {ts now : Nat} {s2 : Bool}
    (h : hitShape (fireGet fire key) = false) :
    resolveFire mem fire ⟨true, s2⟩ renderer url key ts now =
      afterGetCall (renderAndStore mem fire ⟨true, s2⟩ renderer url key ts now) := by
  rcases hf : alGet fire key with _ | dOpt
  · simp [resolveFire, fireGet, hf]
  · rcases dOpt with _ | d
    · simp [resolveFire, fireGet, hf]
    · rcases hd : d.html with c | _
      · exfalso
        simp [hitShape, fireGet, hf, hd] at h
      · simp [resolveFire, fireGet, hf, hd]

theorem resolveFire_getFail {mem : List (String × String)} {fire : List (String × Option CacheData)}
    {renderer : String → String} {url key : String} {ts now : Nat} {s2 : Bool} :
    resolveFire mem fire ⟨false, s2⟩ renderer url key ts now =
      afterGetCall (renderAndStore mem fire ⟨false, s2⟩ renderer url key ts now) := by
  simp [resolveFire]

theorem resolve_full_miss_aux {mem : List (String × String)} {fire : List (String × Option CacheData)}
    {renderer : String → String} {url : String} {ts now : Nat}
    (hm : alGet mem (safeUrl url) = none)
    (hf : alGet fire (safeUrl url) = none) :
    resolve mem fire ⟨true, true⟩ renderer url ts now =
      ⟨renderer url, alSet mem (safeUrl url) (renderer url),
       alSet fire (safeUrl url) (some ⟨JsVal.str (renderer url), ts, url, now⟩), 1, 2⟩ := by
  rw [resolve_of_mem_miss hm]
  have hshape : hitShape (fireGet fire (safeUrl url)) = false := by
    simp [hitShape, fireGet, hf]
  rw [resolveFire_noShape hshape]
  simp [afterGetCall, renderAndStore]

theorem foldl_invStep_fire_frame (pat k : String) (ks : List String) (st : ServerState)
    (hk : k ∉ ks) :
    alGet (ks.foldl (invStep pat) st).fire k = alGet st.fire k := by
  induction ks generalizing st with
  | nil => rfl
  | cons a t ih =>
    have hka : k ≠ a := fun he => hk (by simp [he])
    have hkt : k ∉ t := fun ht => hk (List.mem_cons_of_mem a ht)
    rw [List.foldl_cons, ih (invStep pat st a) hkt]
    unfold invStep
    by_cases h : strIncludes a pat
    · simp [h, alGet_alDel_ne _ _ _ hka]
    · simp [h]

/-! ### The claims -/

/-- Claim C9: key normalization is a total function on all strings
(every input, the empty string included, maps to a result of the same
length), it rewrites exactly the slash and whitespace characters to an
underscore and leaves every other character unchanged, and it is
idempotent. -/
theorem safeUrl_total_replaces_idem (p : String) :
    safeUrl (safeUrl p) = safeUrl p ∧
    (safeUrl p).data = p.data.map normChar ∧
    (safeUrl p).data.length = p.data.length ∧
    safeUrl "" = "" := by
  refine ⟨?_, rfl, ?_, rfl⟩
  · show String.mk ((p.data.map normChar).map normChar) = String.mk (p.data.map normChar)
    rw [List.map_map]
    exact congrArg String.mk (List.map_congr_left fun c _ => normChar_idem c)
  · show (p.data.map normChar).length = p.data.length
    exact List.length_map _ _

/-- Claim C1: on a full miss (key absent from both tiers, single request),
`resolve` invokes the renderer exactly once, returns the rendered content,
and afterwards the volatile tier holds the renderer's output at the key
and, the durable write succeeding, so does the durable tier. -/
theorem resolve_full_miss_populates (mem : List (String × String))
    (fire : List (String × Option CacheData)) (renderer : String → String)
    (url : String) (ts now : Nat)
    (hm : alGet mem (safeUrl url) = none)
    (hf : alGet fire (safeUrl url) = none) :
    (resolve mem fire ⟨true, true⟩ renderer url ts now).renders = 1 ∧
    (resolve mem fire ⟨true, true⟩ renderer url ts now).body = renderer url ∧
    alGet (resolve mem fire ⟨true, true⟩ renderer url ts now).mem (safeUrl url)
      = some (renderer url) ∧
    alGet (resolve mem fire ⟨true, true⟩ renderer url ts now).fire (safeUrl url)
      = some (some ⟨JsVal.str (renderer url), ts, url, now⟩) := by
  rw [resolve_full_miss_aux hm hf]
  exact ⟨rfl, rfl, alGet_alSet_self _ _ _, alGet_alSet_self _ _ _⟩

/-- Witness for C1 at a concrete full miss. -/
theorem resolve_full_miss_populates_witness :
    alGet ([] : List (String × String)) (safeUrl "/foo/bar") = none ∧
    alGet ([] : List (String × Option CacheData)) (safeUrl "/foo/bar") = none ∧
    (resolve [] [] ⟨true, true⟩ (fun _ => "<html>1</html>") "/foo/bar" 5 7).renders = 1 ∧
    (resolve [] [] ⟨true, true⟩ (fun _ => "<html>1</html>") "/foo/bar" 5 7).body
      = "<html>1</html>" :=
  ⟨rfl, rfl,
    (resolve_full_miss_populates [] [] (fun _ => "<html>1</html>") "/foo/bar" 5 7 rfl rfl).1,
    (resolve_full_miss_populates [] [] (fun _ => "<html>1</html>") "/foo/bar" 5 7 rfl rfl).2.1⟩

/-- Claim C2: read-through backfill — with an empty volatile cache and a
durable record whose `html` field is the string `c` at the key, `resolve`
for any path normalizing to that key returns `c`, stores `c` in the
volatile cache under the key, never invokes the renderer, and leaves the
durable tier unchanged. -/
theorem resolve_readthrough_backfill (fire : List (String × Option CacheData))
    (renderer : String → String) (url : String) (ts now : Nat)
    (d : CacheData) (c : String)
    (hf : alGet fire (safeUrl url) = some (some d)) (hc : d.html = JsVal.str c) :
    resolve [] fire ⟨true, true⟩ renderer url ts now =
      ⟨c, [(safeUrl url, c)], fire, 0, 1⟩ := by
  have hm : alGet ([] : List (String × String)) (safeUrl url) = none := rfl
  rw [resolve_of_mem_miss hm, resolveFire_hit hf hc]
  simp [alSet, alDel]

/-- Witness for C2 at a concrete durable hit. -/
theorem resolve_readthrough_backfill_witness :
    alGet [("_foo_bar", some (⟨JsVal.str "<html>1</html>", 3, "/foo/bar", 4⟩ : CacheData))]
        (safeUrl "/foo/bar") = some (some ⟨JsVal.str "<html>1</html>", 3, "/foo/bar", 4⟩) ∧
    resolve [] [("_foo_bar", some ⟨JsVal.str "<html>1</html>", 3, "/foo/bar", 4⟩)]
        ⟨true, true⟩ (fun _ => "fresh") "/foo/bar" 5 7 =
      ⟨"<html>1</html>", [("_foo_bar", "<html>1</html>")],
       [("_foo_bar", some ⟨JsVal.str "<html>1</html>", 3, "/foo/bar", 4⟩)], 0, 1⟩ :=
  ⟨by decide,
    by
      have := resolve_readthrough_backfill
        [("_foo_bar", some ⟨JsVal.str "<html>1</html>", 3, "/foo/bar", 4⟩)]
        (fun _ => "fresh") "/foo/bar" 5 7
        ⟨JsVal.str "<html>1</html>", 3, "/foo/bar", 4⟩ "<html>1</html>" (by decide) rfl
      simpa using this⟩

theorem resolveFire_setFail_fire {mem : List (String × String)}
    {fire : List (String × Option CacheData)} {renderer : String → String}
    {url key : String} {ts now : Nat} (g : Bool) :
    (resolveFire mem fire ⟨g, false⟩ renderer url key ts now).fire = fire := by
  rcases g with _ | _
  · rw [resolveFire_getFail]
    simp [afterGetCall, renderAndStore]
  · rcases hf : alGet fire key with _ | dOpt
    · rw [resolveFire_noShape (by simp [hitShape, fireGet, hf])]
      simp [afterGetCall, renderAndStore]
    · rcases dOpt with _ | d
      · rw [resolveFire_noShape (by simp [hitShape, fireGet, hf])]
        simp [afterGetCall, renderAndStore]
      · rcases hd : d.html with c | _
        · rw [resolveFire_hit hf hd]
        · rw [resolveFire_noShape (by simp [hitShape, fireGet, hf, hd])]
          simp [afterGetCall, renderAndStore]

theorem resolveFire_setFail_cases {mem : List (String × String)}
    {fire : List (String × Option CacheData)} {renderer : String → String}
    {url key : String} {ts now : Nat} (g : Bool) :
    (∃ d c, alGet fire key = some (some d) ∧ d.html = JsVal.str c ∧
       (resolveFire mem fire ⟨g, false⟩ renderer url key ts now).body = c ∧
       (resolveFire mem fire ⟨g, false⟩ renderer url key ts now).renders = 0) ∨
    ((resolveFire mem fire ⟨g, false⟩ renderer url key ts now).body = renderer url ∧
     alGet (resolveFire mem fire ⟨g, false⟩ renderer url key ts now).mem key
       = some (renderer url) ∧
     (resolveFire mem fire ⟨g, false⟩ renderer url key ts now).renders = 1) := by
  rcases g with _ | _
  · right
    rw [resolveFire_getFail]
    simp [afterGetCall, renderAndStore, alGet_alSet_self]
  · rcases hf : alGet fire key with _ | dOpt
    · right
      rw [resolveFire_noShape (by simp [hitShape, fireGet, hf])]
      simp [afterGetCall, renderAndStore, alGet_alSet_self]
    · rcases dOpt with _ | d
      · right
        rw [resolveFire_noShape (by simp [hitShape, fireGet, hf])]
        simp [afterGetCall, renderAndStore, alGet_alSet_self]
      · rcases hd : d.html with c | _
        · left
          rw [resolveFire_hit hf hd]
          exact ⟨d, c, rfl, hd, rfl, rfl⟩
        · right
          rw [resolveFire_noShape (by simp [hitShape, fireGet, hf, hd])]
          simp [afterGetCall, renderAndStore, alGet_alSet_self]

/-- Claim C3: durable-store failure containment.  First conjunct: when the
durable read throws (`getOk = false`, any write outcome), `resolve` still
answers, either straight from a truthy volatile entry or with freshly
rendered output, which it also writes to the volatile tier.  Second
conjunct: when the durable write throws (`setOk = false`, any read
outcome), the durable tier is untouched and `resolve` answers from the
volatile tier, from a well-shaped durable record, or with freshly rendered
output, the volatile write having already happened. -/
theorem resolve_store_failure_contained (mem : List (String × String))
    (fire : List (String × Option CacheData)) (g s : Bool)
    (renderer : String → String) (url : String) (ts now : Nat) :
    ((∃ v, alGet mem (safeUrl url) = some v ∧ v ≠ "" ∧
        resolve mem fire ⟨false, s⟩ renderer url ts now = ⟨v, mem, fire, 0, 0⟩) ∨
     ((resolve mem fire ⟨false, s⟩ renderer url ts now).body = renderer url ∧
      alGet (resolve mem fire ⟨false, s⟩ renderer url ts now).mem (safeUrl url)
        = some (renderer url) ∧
      (resolve mem fire ⟨false, s⟩ renderer url ts now).renders = 1)) ∧
    ((resolve mem fire ⟨g, false⟩ renderer url ts now).fire = fire ∧
     ((∃ v, alGet mem (safeUrl url) = some v ∧ v ≠ "" ∧
         (resolve mem fire ⟨g, false⟩ renderer url ts now).body = v) ∨
      (∃ d c, alGet fire (safeUrl url) = some (some d) ∧ d.html = JsVal.str c ∧
         (resolve mem fire ⟨g, false⟩ renderer url ts now).body = c ∧
         (resolve mem fire ⟨g, false⟩ renderer url ts now).renders = 0) ∨
      ((resolve mem fire ⟨g, false⟩ renderer url ts now).body = renderer url ∧
       alGet (resolve mem fire ⟨g, false⟩ renderer url ts now).mem (safeUrl url)
         = some (renderer url) ∧
       (resolve mem fire ⟨g, false⟩ renderer url ts now).renders = 1))) := by
  constructor
  · rcases hm : alGet mem (safeUrl url) with _ | v
    · right
      rw [resolve_of_mem_miss hm, resolveFire_getFail]
      refine ⟨?_, ?_, ?_⟩ <;> simp [afterGetCall, renderAndStore, alGet_alSet_self]
    · by_cases hv : v = ""
      · subst hv
        right
        rw [resolve_of_mem_empty hm, resolveFire_getFail]
        refine ⟨?_, ?_, ?_⟩ <;> simp [afterGetCall, renderAndStore, alGet_alSet_self]
      · left
        exact ⟨v, rfl, hv, resolve_mem_hit hm hv⟩
  · rcases hm : alGet mem (safeUrl url) with _ | v
    · rw [resolve_of_mem_miss hm]
      refine ⟨resolveFire_setFail_fire g, ?_⟩
      rcases @resolveFire_setFail_cases mem fire renderer url (safeUrl url) ts now g with h | h
      · exact Or.inr (Or.inl h)
      · exact Or.inr (Or.inr h)
    · by_cases hv : v = ""
      · subst hv
        rw [resolve_of_mem_empty hm]
        refine ⟨resolveFire_setFail_fire g, ?_⟩
        rcases @resolveFire_setFail_cases mem fire renderer url (safeUrl url) ts now g with h | h
        · exact Or.inr (Or.inl h)
        · exact Or.inr (Or.inr h)
      · rw [resolve_mem_hit hm hv]
        exact ⟨rfl, Or.inl ⟨v, rfl, hv, rfl⟩⟩

/-- Counterexample to claim C4 as stated: the key `"k"` is present in the
volatile cache (holding the empty string), yet `resolve` invokes the
renderer once and performs two durable-store round trips instead of
serving the cached content with no renderer invocation. -/
theorem volatile_fast_path_counterexample :
    alGet [("k", "")] (safeUrl "k") = some "" ∧
    (resolve [("k", "")] [] ⟨true, true⟩ (fun _ => "<html>1</html>") "k" 0 0).renders = 1 ∧
    (resolve [("k", "")] [] ⟨true, true⟩ (fun _ => "<html>1</html>") "k" 0 0).fireCalls = 2 ∧
    (resolve [("k", "")] [] ⟨true, true⟩ (fun _ => "<html>1</html>") "k" 0 0).body
      = "<html>1</html>" := by
  decide

/-- Claim C4 (amended): for every key present in the volatile cache with
non-empty content, `resolve` returns the cached content immediately with
no durable-store round trip and no renderer invocation; and a second
identical request after a fully populated first request whose rendered
output is non-empty is served entirely from the volatile tier. -/
theorem volatile_fast_path_nonempty (mem : List (String × String))
    (fire : List (String × Option CacheData)) (g s : Bool)
    (renderer : String → String) (url : String) (ts now : Nat) (v : String) :
    (alGet mem (safeUrl url) = some v → v ≠ "" →
      resolve mem fire ⟨g, s⟩ renderer url ts now = ⟨v, mem, fire, 0, 0⟩) ∧
    (alGet mem (safeUrl url) = none → alGet fire (safeUrl url) = none →
      renderer url ≠ "" →
      resolve (resolve mem fire ⟨true, true⟩ renderer url ts now).mem
          (resolve mem fire ⟨true, true⟩ renderer url ts now).fire
          ⟨g, s⟩ renderer url ts now =
        ⟨renderer url,
         (resolve mem fire ⟨true, true⟩ renderer url ts now).mem,
         (resolve mem fire ⟨true, true⟩ renderer url ts now).fire, 0, 0⟩) := by
  constructor
  · intro hm hv
    exact resolve_mem_hit hm hv
  · intro hm hf hr
    rw [resolve_full_miss_aux hm hf]
    exact resolve_mem_hit (alGet_alSet_self _ _ _) hr

/-- Witness for the amended C4: a populated volatile entry is served with
zero renderer invocations and zero durable round trips. -/
theorem volatile_fast_path_nonempty_witness :
    alGet [("_foo_bar", "<html>1</html>")] (safeUrl "/foo/bar") = some "<html>1</html>" ∧
    resolve [("_foo_bar", "<html>1</html>")] [] ⟨true, true⟩ (fun _ => "fresh")
        "/foo/bar" 5 7 =
      ⟨"<html>1</html>", [("_foo_bar", "<html>1</html>")], [], 0, 0⟩ :=
  ⟨by decide,
   (volatile_fast_path_nonempty [("_foo_bar", "<html>1</html>")] [] true true
      (fun _ => "fresh") "/foo/bar" 5 7 "<html>1</html>").1 (by decide) (by decide)⟩

/-- Claim C5: after the url branch of the invalidation endpoint, both
tiers report the normalized key absent, the endpoint reports success, a
subsequent `resolve` for the same path invokes the renderer again, and
invalidating a key absent from both tiers is a successful no-op. -/
theorem invalidate_key_spec (st : ServerState) (p : String)
    (renderer : String → String) (ts now : Nat) :
    (invalidateHandler st (some p) none).2 = true ∧
    alGet (invalidateHandler st (some p) none).1.mem (safeUrl p) = none ∧
    alGet (invalidateHandler st (some p) none).1.fire (safeUrl p) = none ∧
    (resolve (invalidateHandler st (some p) none).1.mem
       (invalidateHandler st (some p) none).1.fire
       ⟨true, true⟩ renderer p ts now).renders = 1 ∧
    (alGet st.mem (safeUrl p) = none → alGet st.fire (safeUrl p) = none →
      invalidateHandler st (some p) none = (st, true)) := by
  have hmem : (invalidateHandler st (some p) none).1.mem = alDel st.mem (safeUrl p) := rfl
  have hfire : (invalidateHandler st (some p) none).1.fire = alDel st.fire (safeUrl p) := rfl
  refine ⟨rfl, ?_, ?_, ?_, ?_⟩
  · rw [hmem]
    exact alGet_alDel_self _ _
  · rw [hfire]
    exact alGet_alDel_self _ _
  · rw [hmem, hfire,
      resolve_full_miss_aux (alGet_alDel_self _ _) (alGet_alDel_self _ _)]
  · intro h1 h2
    show ((⟨alDel st.mem (safeUrl p), alDel st.fire (safeUrl p)⟩ : ServerState), true)
      = (st, true)
    rw [alDel_of_absent _ _ h1, alDel_of_absent _ _ h2]

/-- Witness for C5 at a concrete populated state. -/
theorem invalidate_key_spec_witness :
    alGet (invalidateHandler
        ⟨[("_a", "1")], [("_a", some ⟨JsVal.str "1", 0, "/a", 0⟩)]⟩ (some "/a") none).1.mem
      (safeUrl "/a") = none ∧
    alGet (invalidateHandler
        ⟨[("_a", "1")], [("_a", some ⟨JsVal.str "1", 0, "/a", 0⟩)]⟩ (some "/a") none).1.fire
      (safeUrl "/a") = none :=
  ⟨(invalidate_key_spec ⟨[("_a", "1")], [("_a", some ⟨JsVal.str "1", 0, "/a", 0⟩)]⟩
      "/a" (fun _ => "x") 0 0).2.1,
   (invalidate_key_spec ⟨[("_a", "1")], [("_a", some ⟨JsVal.str "1", 0, "/a", 0⟩)]⟩
      "/a" (fun _ => "x") 0 0).2.2.1⟩

/-- Claim C6: pattern invalidation with pattern `"a_"` on the state whose
volatile keys are `a_b`, `a_c`, `x_y` (each mirrored durably) removes
exactly `a_b` and `a_c` from both tiers; `x_y` remains in both. -/
theorem invalidate_pattern_exact :
    invalidatePattern
      ⟨[("a_b", "1"), ("a_c", "2"), ("x_y", "3")],
       [("a_b", some ⟨JsVal.str "1", 0, "/a/b", 0⟩),
        ("a_c", some ⟨JsVal.str "2", 0, "/a/c", 0⟩),
        ("x_y", some ⟨JsVal.str "3", 0, "/x/y", 0⟩)]⟩ "a_" =
      ⟨[("x_y", "3")], [("x_y", some ⟨JsVal.str "3", 0, "/x/y", 0⟩)]⟩ ∧
    strIncludes "a_b" "a_" = true ∧ strIncludes "a_c" "a_" = true ∧
    strIncludes "x_y" "a_" = false := by
  decide

/-- Claim C7: pattern invalidation is blind to durable-only entries — for
every key outside the volatile tier's key snapshot at call time, the
durable entry at that key is unchanged by `invalidatePattern`, whatever
the pattern (in particular even when the key contains it). -/
theorem invalidate_pattern_durable_frame (st : ServerState) (pat k : String)
    (hk : k ∉ alKeys st.mem) :
    alGet (invalidatePattern st pat).fire k = alGet st.fire k := by
  unfold invalidatePattern
  exact foldl_invStep_fire_frame pat k (alKeys st.mem) st hk

/-- Witness for C7: a durable-only key containing the pattern survives
pattern invalidation. -/
theorem invalidate_pattern_durable_frame_witness :
    "a_b" ∉ alKeys
      (⟨[("x", "1")], [("a_b", some ⟨JsVal.str "1", 0, "/a/b", 0⟩)]⟩ : ServerState).mem ∧
    alGet (invalidatePattern
        ⟨[("x", "1")], [("a_b", some ⟨JsVal.str "1", 0, "/a/b", 0⟩)]⟩ "a_").fire "a_b"
      = alGet [("a_b", some (⟨JsVal.str "1", 0, "/a/b", 0⟩ : CacheData))] "a_b" :=
  ⟨by decide,
   invalidate_pattern_durable_frame
     ⟨[("x", "1")], [("a_b", some ⟨JsVal.str "1", 0, "/a/b", 0⟩)]⟩ "a_" "a_b" (by decide)⟩

/-- Claim C8: a durable record is a cache hit exactly when the existence
flag is true, the payload is present and its `html` field is a string; on
a hit the request is served without rendering, and on any other shape the
request proceeds to render and is answered normally. -/
theorem durable_hit_shape_check (fire : List (String × Option CacheData))
    (renderer : String → String) (url : String) (ts now : Nat) :
    (hitShape (fireGet fire (safeUrl url)) = true ↔
      ((fireGet fire (safeUrl url)).docExists = true ∧
       ∃ d c, (fireGet fire (safeUrl url)).data = some d ∧ d.html = JsVal.str c)) ∧
    (hitShape (fireGet fire (safeUrl url)) = true →
      (resolve [] fire ⟨true, true⟩ renderer url ts now).renders = 0 ∧
      ∃ d c, alGet fire (safeUrl url) = some (some d) ∧ d.html = JsVal.str c ∧
        (resolve [] fire ⟨true, true⟩ renderer url ts now).body = c) ∧
    (hitShape (fireGet fire (safeUrl url)) = false →
      (resolve [] fire ⟨true, true⟩ renderer url ts now).renders = 1 ∧
      (resolve [] fire ⟨true, true⟩ renderer url ts now).body = renderer url) := by
  have hm : alGet ([] : List (String × String)) (safeUrl url) = none := rfl
  rcases hf : alGet fire (safeUrl url) with _ | dOpt
  · have hsnap : fireGet fire (safeUrl url) = ⟨false, none⟩ := by simp [fireGet, hf]
    have hsh : hitShape (fireGet fire (safeUrl url)) = false := by simp [hitShape, hsnap]
    rw [resolve_of_mem_miss hm, resolveFire_noShape hsh]
    refine ⟨?_, ?_, ?_⟩
    · simp [hitShape, hsh, hsnap]
    · intro h
      rw [hsh] at h
      exact absurd h (by simp)
    · intro _
      constructor <;> simp [afterGetCall, renderAndStore]
  · rcases dOpt with _ | d
    · have hsnap : fireGet fire (safeUrl url) = ⟨true, none⟩ := by simp [fireGet, hf]
      have hsh : hitShape (fireGet fire (safeUrl url)) = false := by simp [hitShape, hsnap]
      rw [resolve_of_mem_miss hm, resolveFire_noShape hsh]
      refine ⟨?_, ?_, ?_⟩
      · simp [hitShape, hsh, hsnap]
      · intro h
        rw [hsh] at h
        exact absurd h (by simp)
      · intro _
        constructor <;> simp [afterGetCall, renderAndStore]
    · have hsnap : fireGet fire (safeUrl url) = ⟨true, some d⟩ := by simp [fireGet, hf]
      rcases hd : d.html with c | _
      · have hsh : hitShape (fireGet fire (safeUrl url)) = true := by
          simp [hitShape, hsnap, hd]
        rw [resolve_of_mem_miss hm, resolveFire_hit (by rw [hf]) hd]
        refine ⟨?_, ?_, ?_⟩
        · refine ⟨fun _ => ⟨by simp [hsnap], d, c, by simp [hsnap], hd⟩, fun _ => hsh⟩
        · intro _
          exact ⟨rfl, d, c, rfl, hd, rfl⟩
        · intro h
          rw [hsh] at h
          exact absurd h (by simp)
      · have hsh : hitShape (fireGet fire (safeUrl url)) = false := by
          simp [hitShape, hsnap, hd]
        rw [resolve_of_mem_miss hm, resolveFire_noShape hsh]
        refine ⟨?_, ?_, ?_⟩
        · simp [hitShape, hsh, hsnap, hd]
        · intro h
          rw [hsh] at h
          exact absurd h (by simp)
        · intro _
          constructor <;> simp [afterGetCall, renderAndStore]

/-- Witness for C8: a malformed record (non-string `html`) is treated as a
miss and the request renders. -/
theorem durable_hit_shape_check_witness :
    hitShape (fireGet [("k", some ⟨JsVal.nonString, 0, "/k", 0⟩)] (safeUrl "k")) = false ∧
    (resolve [] [("k", some ⟨JsVal.nonString, 0, "/k", 0⟩)] ⟨true, true⟩
        (fun _ => "fresh") "k" 0 0).renders = 1 ∧
    (resolve [] [("k", some ⟨JsVal.nonString, 0, "/k", 0⟩)] ⟨true, true⟩
        (fun _ => "fresh") "k" 0 0).body = "fresh" :=
  ⟨by decide,
   (durable_hit_shape_check [("k", some ⟨JsVal.nonString, 0, "/k", 0⟩)]
      (fun _ => "fresh") "k" 0 0).2.2 (by decide)⟩

/-- Claim C10: an empty-string entry in the volatile cache is never served
from the volatile tier — the truthiness check treats it as a miss, so the
request falls through to the durable lookup, and if the durable tier also
misses it reaches the renderer, on every access. -/
theorem empty_string_volatile_fallthrough (fire : List (String × Option CacheData))
    (renderer : String → String) (url : String) (ts now : Nat) :
    resolve [(safeUrl url, "")] fire ⟨true, true⟩ renderer url ts now =
      resolveFire [(safeUrl url, "")] fire ⟨true, true⟩ renderer url (safeUrl url) ts now ∧
    (alGet fire (safeUrl url) = none →
      (resolve [(safeUrl url, "")] fire ⟨true, true⟩ renderer url ts now).renders = 1 ∧
      (resolve [(safeUrl url, "")] fire ⟨true, true⟩ renderer url ts now).body
        = renderer url ∧
      (resolve [(safeUrl url, "")] fire ⟨true, true⟩ renderer url ts now).fireCalls = 2) := by
  have hm : alGet [(safeUrl url, "")] (safeUrl url) = some "" := by simp [alGet]
  constructor
  · exact resolve_of_mem_empty hm
  · intro hf
    rw [resolve_of_mem_empty hm, resolveFire_noShape (by simp [hitShape, fireGet, hf])]
    refine ⟨?_, ?_, ?_⟩ <;> simp [afterGetCall, renderAndStore]

/-- Witness for C10: with both durable and renderer concrete, the
empty-string volatile entry leads to a render. -/
theorem empty_string_volatile_fallthrough_witness :
    alGet ([] : List (String × Option CacheData)) (safeUrl "k") = none ∧
    (resolve [(safeUrl "k", "")] [] ⟨true, true⟩ (fun _ => "R") "k" 0 0).renders = 1 ∧
    (resolve [(safeUrl "k", "")] [] ⟨true, true⟩ (fun _ => "R") "k" 0 0).body = "R" :=
  ⟨rfl,
   ((empty_string_volatile_fallthrough [] (fun _ => "R") "k" 0 0).2 rfl).1,
   ((empty_string_volatile_fallthrough [] (fun _ => "R") "k" 0 0).2 rfl).2.1⟩

/-- Witness for C3: with both durable calls failing and both tiers empty,
the request is still answered with the rendered output. -/
theorem resolve_store_failure_contained_witness :
    (resolve [] [] ⟨false, false⟩ (fun _ => "R") "k" 0 0).body = "R" := by
  rcases (resolve_store_failure_contained [] [] false false (fun _ => "R") "k" 0 0).1
    with ⟨v, hv, _, _⟩ | h
  · simp [alGet] at hv
  · exact h.1
